import Mathlib

/-!
Verification of the incremental rebuild / hot-update engine of the
testify repository (src/src/hmr-manager.ts and the HMR client runtime in
src/src/html-generator.ts, duplicated in src/unnamed/part_006).

Shallow embedding: each definition below is a direct translation of the
corresponding TypeScript function.  Filesystem access, the picomatch
pattern matcher, the bundler and module evaluation are external
collaborators and are modelled as oracle parameters.
-/

namespace Testify

/-- Modelled from the spec: the repository's utils module (which holds the
path helper named norm) is not among the provided sources.  Section 6 of the
spec says paths are absolute and use a single normalized separator
convention, so the helper is modelled as mapping every backslash to a
forward slash. -/
def normPath (s : String) : String :=
  ⟨s.data.map (fun c => if c = '\\' then '/' else c)⟩

/-- Helper: `leadList p s` is true when the char list `p` is an initial
segment of the char list `s`. -/
def leadList : List Char → List Char → Bool
  | [], _ => true
  | _ :: _, [] => false
  | a :: as, b :: bs => (a = b) && leadList as bs

/-- `strHasLead s lead` embeds JavaScript `s.startsWith(lead)`. -/
def strHasLead (s lead : String) : Bool := leadList lead.data s.data

/-- hmr-manager.ts line 24: the HmrUpdate type field. -/
inductive UpdateType where
  | update
  | fullReload
  | testUpdate
deriving DecidableEq, Repr

/-- hmr-manager.ts line 177: the changeType argument of
determineUpdateStrategy. -/
inductive ChangeType where
  | add
  | change
  | unlink
  | addDir
  | unlinkDir
deriving DecidableEq, Repr

/-- hmr-manager.ts line 46: SourceChangeStrategy. -/
inductive SourceChangeStrategy where
  | smart
  | alwaysReload
  | neverReload
deriving DecidableEq, Repr

/-- The configuration state of an HmrManager instance that the classifier
reads: srcDirs and testDirs from ViteJasmineConfig, the strategy, and the
critical source patterns (hmr-manager.ts lines 76-107). -/
structure HmrCfg where
  srcDirs : List String
  testDirs : List String
  sourceChangeStrategy : SourceChangeStrategy
  criticalSourcePatterns : List String

/-- hmr-manager.ts line 97-99: srcDir is srcDirs[0] when the array is
non-empty, otherwise "./src"; primarySrcDir is its normalization. -/
def primarySrcDir (cfg : HmrCfg) : String := normPath (cfg.srcDirs.headD "./src")

/-- hmr-manager.ts line 98-100: testDir is testDirs[0] when the array is
non-empty, otherwise "./tests"; primaryTestDir is its normalization. -/
def primaryTestDir (cfg : HmrCfg) : String := normPath (cfg.testDirs.headD "./tests")

/-- hmr-manager.ts lines 147-150: isTestFile. -/
def isTestFile (cfg : HmrCfg) (filePath : String) : Bool :=
  strHasLead (normPath filePath) (primaryTestDir cfg)

/-- hmr-manager.ts lines 155-158: isSourceFile. -/
def isSourceFile (cfg : HmrCfg) (filePath : String) : Bool :=
  strHasLead (normPath filePath) (primarySrcDir cfg)

/-- hmr-manager.ts lines 163-170: isCriticalSourceFile.  The external
picomatch.isMatch library call is the oracle `pm` (first argument the
normalized path, second the pattern). -/
def isCriticalSourceFile (pm : String → String → Bool) (cfg : HmrCfg)
    (filePath : String) : Bool :=
  if !(isSourceFile cfg filePath) then false
  else cfg.criticalSourcePatterns.any (fun pat => pm (normPath filePath) pat)

/-- The file kind computed at hmr-manager.ts lines 439-440 (handleFileAdd)
and 479-480 (handleFileRemove): test if isTestFile, else source if
isSourceFile, else unknown. -/
inductive FileKind where
  | source
  | test
  | unknown
deriving DecidableEq, Repr

/-- hmr-manager.ts lines 439-440: fileType classification. -/
def fileKind (cfg : HmrCfg) (filePath : String) : FileKind :=
  if isTestFile cfg filePath then .test
  else if isSourceFile cfg filePath then .source
  else .unknown

/-- hmr-manager.ts lines 175-250: determineUpdateStrategy, translated
branch for branch with its exact reason strings. -/
def determineUpdateStrategy (pm : String → String → Bool) (cfg : HmrCfg)
    (changedFiles : List String) (changeType : ChangeType) :
    UpdateType × String :=
  let hasSourceChanges := changedFiles.any (isSourceFile cfg)
  let hasTestChanges := changedFiles.any (isTestFile cfg)
  let hasCriticalChanges := changedFiles.any (isCriticalSourceFile pm cfg)
  if !hasSourceChanges && hasTestChanges then
    (.testUpdate, "Test files changed - incremental update")
  else if changeType = .unlink || changeType = .unlinkDir then
    if hasCriticalChanges then
      (.fullReload, "Critical source file/directory removed")
    else
      (.update, "Source file/directory removed - updating dependents")
  else if changeType = .add || changeType = .addDir then
    (.update, "Source file/directory added - building new modules")
  else if hasSourceChanges then
    if cfg.sourceChangeStrategy = .alwaysReload then
      (.fullReload, "Source changed - always-reload strategy")
    else if cfg.sourceChangeStrategy = .neverReload then
      (.update, "Source changed - never-reload strategy")
    else if hasCriticalChanges then
      (.fullReload, "Critical source file changed")
    else
      (.update, "Source changed - incremental update")
  else
    (.update, "General update")

/-! ### Dependency graph (hmr-manager.ts lines 72-73, 255-280, 453-509, 555-609)

JavaScript Map objects keyed by file path with Set values are embedded as
association lists with list values; insertion order is preserved exactly as
by the JS Map and Set. -/

/-- A JavaScript Map from file path to a Set of file paths. -/
abbrev GMap := List (String × List String)

/-- Map.prototype.get (first matching key). -/
def gmGet? : GMap → String → Option (List String)
  | [], _ => none
  | e :: rest, k => if e.1 = k then some e.2 else gmGet? rest k

/-- Map.prototype.set: replace in place when the key is present, otherwise
append. -/
def gmSet : GMap → String → List String → GMap
  | [], k, v => [(k, v)]
  | e :: rest, k, v => if e.1 = k then (k, v) :: rest else e :: gmSet rest k v

/-- Map.prototype.delete. -/
def gmDel : GMap → String → GMap
  | [], _ => []
  | e :: rest, k => if e.1 = k then gmDel rest k else e :: gmDel rest k

/-- Set.prototype.add (no effect when already a member, otherwise appended). -/
def ssAdd (s : List String) (x : String) : List String :=
  if x ∈ s then s else s ++ [x]

/-- Set.prototype.delete. -/
def ssDel (s : List String) (x : String) : List String :=
  s.filter (fun y => y ≠ x)

/-- The pattern map.get(k)?.delete(x): mutate the value set only when the
key is present (hmr-manager.ts line 266). -/
def gmAdjustDel : GMap → String → String → GMap
  | [], _, _ => []
  | e :: rest, k, x => if e.1 = k then (e.1, ssDel e.2 x) :: rest else e :: gmAdjustDel rest k x

/-- The pattern at hmr-manager.ts lines 274-277: ensure the key has a set,
then add x to it. -/
def gmAddTo : GMap → String → String → GMap
  | [], k, x => [(k, [x])]
  | e :: rest, k, x => if e.1 = k then (e.1, ssAdd e.2 x) :: rest else e :: gmAddTo rest k x

/-- The loops at hmr-manager.ts lines 476-477 and 582-583: delete x from
every value set of the map. -/
def gmScrub (m : GMap) (x : String) : GMap :=
  m.map (fun e => (e.1, ssDel e.2 x))

/-- The two dependency maps of HmrManager (lines 72-73). -/
structure DepGraph where
  deps : GMap
  rdeps : GMap

/-- One iteration of the loop in buildDependencyGraph (hmr-manager.ts lines
259-279) for a single existing file.  `extract` is the oracle for
extractDependencies (which reads the filesystem); it returns the normalized
resolved dependency set. -/
def rebuildOne (extract : String → List String) (g : DepGraph) (file : String) :
    DepGraph :=
  let nf := normPath file
  let oldDeps := (gmGet? g.deps nf).getD []
  let rd1 := oldDeps.foldl (fun rd d => gmAdjustDel rd d nf) g.rdeps
  let newDeps := extract file
  let deps1 := gmSet g.deps nf newDeps
  let rd2 := newDeps.foldl (fun rd d => gmAddTo rd d nf) rd1
  ⟨deps1, rd2⟩

/-- hmr-manager.ts lines 255-280: buildDependencyGraph.  `existsF` is the
fs.existsSync oracle; non-existent input files are skipped. -/
def buildDependencyGraph (existsF : String → Bool) (extract : String → List String)
    (g : DepGraph) (files : List String) : DepGraph :=
  (files.filter existsF).foldl (rebuildOne extract) g

/-- The graph mutation of handleFileRemove (hmr-manager.ts lines 473-477)
and of one loop iteration of handleDirectoryRemove (lines 579-583): delete
the file's key from both maps and delete it from every value set of both
maps. -/
def removeFileEdges (g : DepGraph) (fp : String) : DepGraph :=
  ⟨gmScrub (gmDel g.deps fp) fp, gmScrub (gmDel g.rdeps fp) fp⟩

/-- The graph operations whose before/after states are the observable
points of claim C6. -/
inductive GraphOp where
  | rebuild (files : List String)
  | removeFile (f : String)
  | removeDir (files : List String)

/-- Dispatch one graph operation: rebuilding entries for a set of files
(rebuildAll line 706), removing a file (handleFileRemove, which first
normalizes its argument), removing a directory (handleDirectoryRemove,
whose removedFiles are drawn from the already-normalized allFiles list). -/
def applyGraphOp (existsF : String → Bool) (extract : String → List String)
    (g : DepGraph) : GraphOp → DepGraph
  | .rebuild files => buildDependencyGraph existsF extract g files
  | .removeFile f => removeFileEdges g (normPath f)
  | .removeDir files => files.foldl removeFileEdges g

/-- Fold a sequence of graph operations. -/
def applyGraphOps (existsF : String → Bool) (extract : String → List String)
    (g : DepGraph) (ops : List GraphOp) : DepGraph :=
  ops.foldl (applyGraphOp existsF extract) g

/-- The value set stored under a key; an absent key reads as the empty
set, as in the JS code which guards every get. -/
def gval (m : GMap) (k : String) : List String := (gmGet? m k).getD []

/-- Membership of b in the value set stored under a. -/
def memEdge (m : GMap) (a b : String) : Prop := b ∈ gval m a

/-- The graph symmetry invariant of spec section 8: the forward and reverse
maps are exact transposes. -/
def TransposeInv (g : DepGraph) : Prop :=
  ∀ a b : String, memEdge g.deps a b ↔ memEdge g.rdeps b a

/-! ### The Jasmine suite tree and the HMR client runtime
(html-generator.ts getHmrClientScript, lines 500-660, duplicated in
src/unnamed/part_006 lines 803-955)

A node of the framework's suite tree: a spec child carries an id and the
non-enumerable origin tag written by setFilePath but has no children array,
while a suite carries a children array (possibly empty) and a flat specs
list whose members are identified here by id and tag.  The client code
distinguishes the two shapes by Array.isArray(child.children). -/

mutual

inductive SNode where
  | sp (id : Nat) (tag : Option String) : SNode
  | su (id : Nat) (tag : Option String) (children : SList) (specs : List (Nat × Option String)) : SNode

inductive SList where
  | nil : SList
  | cons (head : SNode) (tail : SList) : SList

end

/-- The origin tag read as child._filePath (undefined reads as none). -/
def tagOf : SNode → Option String
  | .sp _ t => t
  | .su _ t _ _ => t

/-- The (id, tag) identity of a node. -/
def infoOf : SNode → Nat × Option String
  | .sp i t => (i, t)
  | .su i t _ _ => (i, t)

mutual

/-- All (id, tag) pairs of nodes strictly below this node: the children
subtrees in order, then the flat specs list. -/
def belowN : SNode → List (Nat × Option String)
  | .sp _ _ => []
  | .su _ _ kids specs => belowL kids ++ specs

/-- All (id, tag) pairs of a child list: for each child its own identity,
its descendants, then the rest. -/
def belowL : SList → List (Nat × Option String)
  | .nil => []
  | .cons c rest => infoOf c :: belowN c ++ belowL rest

end

mutual

/-- cleanSuite of detachFilePathSuites (html-generator.ts lines 554-603):
on a node without a children array return it unchanged; on a suite, filter
the children (dropping every child whose _filePath strictly equals the
detached path, recursing into the kept ones) and filter the flat specs
list by tag. -/
def cleanS (f : String) : SNode → SNode
  | .sp i t => .sp i t
  | .su i t kids specs =>
      .su i t (cleanL f kids) (specs.filter (fun p => p.2 ≠ some f))

/-- The loop over suite.children inside cleanSuite: a child tagged with the
detached path is dropped without recursion (the continue branch); any other
child is recursed into when it has a children array and then kept. -/
def cleanL (f : String) : SList → SList
  | .nil => .nil
  | .cons c rest =>
      if tagOf c = some f then cleanL f rest
      else .cons (cleanS f c) (cleanL f rest)

end

/-- detachFilePathSuites(filePath) applied to the root suite. -/
def detachFilePathSuites (f : String) (topSuite : SNode) : SNode := cleanS f topSuite

mutual

/-- Specification-side characterization of what survives a detach below a
node: the descendants reachable from it without crossing a child tagged
with the detached path, plus the tag-filtered specs list. -/
def survN (f : String) : SNode → List (Nat × Option String)
  | .sp _ _ => []
  | .su _ _ kids specs => survL f kids ++ specs.filter (fun p => p.2 ≠ some f)

/-- Specification-side characterization over a child list: a child tagged
with the detached path is skipped together with its whole subtree; any
other child survives with its own surviving descendants. -/
def survL (f : String) : SList → List (Nat × Option String)
  | .nil => []
  | .cons c rest =>
      if tagOf c = some f then survL f rest
      else infoOf c :: survN f c ++ survL f rest

end

mutual

/-- tagSuites of attachFilePathToSuites (html-generator.ts lines 520-548):
assign the path to every node not yet carrying a tag, recursing through
children; the flat specs list is not visited. -/
def tagS (f : String) : SNode → SNode
  | .sp i t => .sp i (if t = none then some f else t)
  | .su i t kids specs => .su i (if t = none then some f else t) (tagL f kids) specs

/-- tagSuites over a children list. -/
def tagL (f : String) : SList → SList
  | .nil => .nil
  | .cons c rest => .cons (tagS f c) (tagL f rest)

end

/-- attachFilePathToSuites(filePath) applied to the root suite (the
moduleExports argument is never read). -/
def attachFilePathToSuites (f : String) (topSuite : SNode) : SNode := tagS f topSuite

/-- Append one node at the end of a children list (Suite.addChild). -/
def appendL : SList → SNode → SList
  | .nil, n => .cons n .nil
  | .cons c rest, n => .cons c (appendL rest n)

/-- Append newly registered suites to the root's children: evaluating an
imported spec module runs its describe calls, which add fresh (untagged)
suites under the framework's top suite. -/
def addTop (root : SNode) (ns : List SNode) : SNode :=
  match root with
  | .sp i t => .sp i t
  | .su i t kids specs => .su i t (ns.foldl appendL kids) specs

/-- The observable events of the hmr:update branch of HMRClient
handleMessage. -/
inductive HostEv where
  | importOk
  | importErr
  | detachDone
  | tagDone
  | reload
deriving DecidableEq, Repr

/-- The hmr:update branch of HMRClient.handleMessage (html-generator.ts
lines 620-645) for a non-full-reload update, as a list of observable
(event, suite tree) points.  `hasContent` is whether update.content is
set; `imp` is the oracle for the cache-busted dynamic import: ok returns
the fresh suites the module evaluation registered, error is a module that
throws (its suites never registered).  On ok, handleMessage then runs
hotUpdateSpec = detachFilePathSuites followed by attachFilePathToSuites;
on error the catch handler calls location.reload(). -/
def handleUpdate (root : SNode) (f : String) (hasContent : Bool)
    (imp : Except String (List SNode)) : List (HostEv × SNode) :=
  if hasContent then
    match imp with
    | .error _ => [(.importErr, root), (.reload, root)]
    | .ok ns =>
        let t1 := addTop root ns
        let t2 := detachFilePathSuites f t1
        let t3 := attachFilePathToSuites f t2
        [(.importOk, t1), (.detachDone, t2), (.tagDone, t3)]
  else
    let t2 := detachFilePathSuites f root
    let t3 := attachFilePathToSuites f t2
    [(.detachDone, t2), (.tagDone, t3)]

/-! ### The rebuild scheduler (hmr-manager.ts lines 57-64, 611-640, 642-794)

The orchestrator is a single-threaded cooperatively scheduled event loop:
queueRebuild suspends at its two await points, and the continuations of
awaiters of a settled promise run in FIFO registration order after the
finally handler.  The state below records exactly the fields isRebuilding
and rebuildPromise (the stored promise identified by the pass id it
belongs to), the passes currently executing inside rebuildAll, the
suspended callers with the promise each awaits and which of the two awaits
it is suspended at, and the callers whose returned promise has resolved. -/

structure Sched where
  isRebuilding : Bool
  rebuildPromise : Option Nat
  nextId : Nat
  running : List Nat
  waiters : List (Nat × Nat × Bool)
  resolvedCallers : List Nat
deriving DecidableEq, Repr

/-- Lines 628-636: set isRebuilding, invoke rebuildAll and store the
chained promise in rebuildPromise. -/
def startPass (s : Sched) : Sched :=
  { s with isRebuilding := true, rebuildPromise := some s.nextId,
           running := s.running ++ [s.nextId], nextId := s.nextId + 1 }

/-- The synchronous continuation a caller runs when it reaches line 628
(either immediately on arrival, or when resumed from the first await):
start a pass when isRebuilding is false, then suspend at the bottom
await of this.rebuildPromise (line 639); awaiting null resolves at once. -/
def proceedCaller (s : Sched) (c : Nat) : Sched :=
  let s1 := if s.isRebuilding then s else startPass s
  match s1.rebuildPromise with
  | some q => { s1 with waiters := s1.waiters ++ [(c, q, true)] }
  | none => { s1 with resolvedCallers := s1.resolvedCallers ++ [c] }

/-- queueRebuild arrival (lines 611-640, after the existence guard and the
queue insertions): when rebuildPromise is non-null the caller suspends at
the first await (line 625); otherwise it proceeds directly. -/
def stepArrive (s : Sched) (c : Nat) : Sched :=
  match s.rebuildPromise with
  | some p => { s with waiters := s.waiters ++ [(c, p, false)] }
  | none => proceedCaller s c

/-- Resume one suspended caller of a settled promise: a bottom awaiter
returns from queueRebuild (its promise resolves); a first awaiter runs the
continuation at line 628. -/
def resumeOne (s : Sched) (c : Nat) (isBottom : Bool) : Sched :=
  if isBottom then { s with resolvedCallers := s.resolvedCallers ++ [c] }
  else proceedCaller s c

/-- Settlement of the oldest executing rebuildAll pass: the finally handler
(lines 633-636) clears isRebuilding and rebuildPromise, then the awaiters
of that pass's promise resume in FIFO order. -/
def stepComplete (s : Sched) : Sched :=
  match s.running with
  | [] => s
  | p :: rest =>
      let ws := s.waiters.filter (fun w => w.2.1 = p)
      let s1 : Sched :=
        { s with running := rest, isRebuilding := false, rebuildPromise := none,
                 waiters := s.waiters.filter (fun w => w.2.1 ≠ p) }
      ws.foldl (fun acc w => resumeOne acc w.1 w.2.2) s1

/-- The two kinds of event-loop turns that drive the scheduler. -/
inductive SchedEv where
  | arrive (c : Nat)
  | complete
deriving DecidableEq, Repr

/-- One event-loop turn. -/
def schedStep (s : Sched) : SchedEv → Sched
  | .arrive c => stepArrive s c
  | .complete => stepComplete s

/-- Run a sequence of turns. -/
def schedRun (s : Sched) (evs : List SchedEv) : Sched := evs.foldl schedStep s

/-- The scheduler state at watcher start. -/
def schedInit : Sched := ⟨false, none, 0, [], [], []⟩

/-- The scheduler invariant: at most one rebuildAll pass executes at a
time, isRebuilding is set exactly while one does, and rebuildPromise is
the promise of the executing pass. -/
def SchedInv (s : Sched) : Prop :=
  s.running.length ≤ 1 ∧ s.isRebuilding = !s.running.isEmpty ∧
    s.rebuildPromise = s.running.head?

/-- A scheduler state with one rebuild pass (id 0) in flight and no
suspended callers. -/
def inflightSched : Sched := ⟨true, some 0, 1, [0], [], []⟩

/-! ### Bundler invocation and retry (hmr-manager.ts lines 715-745) -/

/-- The error class of a failed vite build: buildError.code is compared
with the string UNRESOLVED_ENTRY. -/
inductive BuildErr where
  | unresolvedEntry
  | other (msg : String)
deriving DecidableEq, Repr

/-- How the build section of one drain iteration of rebuildAll ends:
completed with a new cache, abandoned via continue without error, or
aborted by a rethrown build error. -/
inductive PassOutcome where
  | completed (cache : Nat)
  | abandoned
  | aborted (e : BuildErr)
deriving DecidableEq, Repr

/-- The try/catch around the vite build calls in rebuildAll (lines
715-745).  `firstBuild` is the result of the bundler invocation on
(validSourceFiles, validTestFiles); `existsF` is fs.existsSync at retry
time; `retryBuild` is the bundler result for a second invocation on the
re-filtered entries.  The returned Nat counts bundler invocations. -/
def runBuildStep (firstBuild : Except BuildErr Nat) (existsF : String → Bool)
    (retryBuild : List String → List String → Except BuildErr Nat)
    (validSourceFiles validTestFiles : List String) : PassOutcome × Nat :=
  match firstBuild with
  | .ok cache => (.completed cache, 1)
  | .error e =>
      if e = .unresolvedEntry then
        let finalSourceFiles := validSourceFiles.filter existsF
        let finalTestFiles := validTestFiles.filter existsF
        if finalSourceFiles.isEmpty && finalTestFiles.isEmpty then
          (.abandoned, 1)
        else
          match retryBuild finalSourceFiles finalTestFiles with
          | .ok cache => (.completed cache, 2)
          | .error e2 => (.aborted e2, 2)
      else (.aborted e, 1)

/-! ### Concrete instances used by witnesses and counterexamples -/

/-- A configuration with one source root and one test root. -/
def cfgA : HmrCfg := ⟨["/p/src"], ["/p/tests"], .smart, ["**/config/**"]⟩

/-- A configuration with two configured source roots. -/
def cfgMulti : HmrCfg := ⟨["/p/src", "/p/lib"], ["/p/tests"], .smart, ["**/config/**"]⟩

/-- A picomatch oracle that matches every pattern. -/
def pmTrue : String → String → Bool := fun _ _ => true

/-- A picomatch oracle that matches no pattern. -/
def pmFalse : String → String → Bool := fun _ _ => false

/-- A suite tree: untagged root holding one suite tagged with file a whose
child spec carries the tag of file b. -/
def treeC4 : SNode :=
  .su 0 none
    (.cons (.su 1 (some "/p/tests/a.spec.ts")
      (.cons (.sp 2 (some "/p/tests/b.spec.ts")) .nil) []) .nil) []

/-- A suite previously registered by file a and tagged with it. -/
def oldSuiteA : SNode := .su 1 (some "/p/tests/a.spec.ts") .nil []

/-- A fresh, still untagged suite registered by re-importing file a. -/
def newSuiteA : SNode := .su 2 none .nil []

/-- The framework root with the old suite of file a attached. -/
def rootA : SNode := .su 0 none (.cons oldSuiteA .nil) []

/-! ## Theorems -/

theorem infoOf_snd (n : SNode) : (infoOf n).2 = tagOf n := by
  cases n <;> rfl

theorem infoOf_cleanS (f : String) (n : SNode) : infoOf (cleanS f n) = infoOf n := by
  cases n <;> rfl

mutual

theorem belowN_cleanS_no_f (f : String) :
    (n : SNode) → ∀ p ∈ belowN (cleanS f n), p.2 ≠ some f
  | .sp _ _ => by simp [cleanS, belowN]
  | .su i t kids specs => by
      intro p hp
      simp only [cleanS, belowN, List.mem_append] at hp
      rcases hp with hp | hp
      · exact belowL_cleanL_no_f f kids p hp
      · rcases List.mem_filter.mp hp with ⟨-, hq⟩
        simpa using hq

theorem belowL_cleanL_no_f (f : String) :
    (l : SList) → ∀ p ∈ belowL (cleanL f l), p.2 ≠ some f
  | .nil => by simp [cleanL, belowL]
  | .cons c rest => by
      intro p hp
      simp only [cleanL] at hp
      by_cases hc : tagOf c = some f
      · rw [if_pos hc] at hp
        exact belowL_cleanL_no_f f rest p hp
      · rw [if_neg hc] at hp
        simp only [belowL, List.mem_cons, List.mem_append] at hp
        rcases hp with (hp | hp) | hp
        · rw [hp, infoOf_cleanS, infoOf_snd]; exact hc
        · exact belowN_cleanS_no_f f c p hp
        · exact belowL_cleanL_no_f f rest p hp

end

mutual

theorem belowN_cleanS_eq (f : String) : (n : SNode) → belowN (cleanS f n) = survN f n
  | .sp _ _ => rfl
  | .su i t kids specs => by
      simp only [cleanS, belowN, survN, belowL_cleanL_eq f kids]

theorem belowL_cleanL_eq (f : String) : (l : SList) → belowL (cleanL f l) = survL f l
  | .nil => rfl
  | .cons c rest => by
      simp only [cleanL, survL]
      by_cases hc : tagOf c = some f
      · rw [if_pos hc, if_pos hc, belowL_cleanL_eq f rest]
      · rw [if_neg hc, if_neg hc]
        simp only [belowL]
        rw [infoOf_cleanS, belowN_cleanS_eq f c, belowL_cleanL_eq f rest]

end

mutual

theorem survN_sublist (f : String) : (n : SNode) → (survN f n).Sublist (belowN n)
  | .sp _ _ => List.Sublist.refl _
  | .su i t kids specs => by
      simp only [survN, belowN]
      exact (survL_sublist f kids).append (List.filter_sublist _)

theorem survL_sublist (f : String) : (l : SList) → (survL f l).Sublist (belowL l)
  | .nil => List.Sublist.refl _
  | .cons c rest => by
      simp only [survL, belowL]
      by_cases hc : tagOf c = some f
      · rw [if_pos hc]
        exact (survL_sublist f rest).trans (List.sublist_append_right _ _)
      · rw [if_neg hc]
        exact ((survN_sublist f c).cons₂ _).append (survL_sublist f rest)

end

/-- Counterexample to claim C4 as stated: a spec tagged with file b sits
inside a suite tagged with file a; detaching file a removes the whole
subtree, so the differently-tagged spec does not remain present. -/
theorem detach_counterexample :
    ((2, some "/p/tests/b.spec.ts") ∈ belowN treeC4) ∧
    some "/p/tests/b.spec.ts" ≠ some "/p/tests/a.spec.ts" ∧
    ((2, some "/p/tests/b.spec.ts") ∉
      belowN (detachFilePathSuites "/p/tests/a.spec.ts" treeC4)) := by
  decide

/-- Claim C4 (amended): after detachFilePathSuites(f) the nodes strictly
below the root are exactly the original nodes reachable without crossing a
child tagged f (subtrees rooted at an f-tagged child are removed wholesale,
including differently tagged descendants), kept with unchanged identity,
tag and order; in particular no remaining node below the root carries tag
f, and no reference survives that was not in the original tree. -/
theorem detach_exactly_unshielded (f : String) (t : SNode) :
    belowN (detachFilePathSuites f t) = survN f t ∧
    (∀ p ∈ belowN (detachFilePathSuites f t), p.2 ≠ some f) ∧
    (belowN (detachFilePathSuites f t)).Sublist (belowN t) :=
  ⟨belowN_cleanS_eq f t, belowN_cleanS_no_f f t,
    (belowN_cleanS_eq f t).symm ▸ (survN_sublist f t)⟩

/-- Counterexample to claim C2 as stated: the client performs the
cache-busted re-import first; at the first observable point the old suite
of the file (id 1, tagged with it) and the freshly registered suite (id 2,
still untagged) coexist under the root, and the detach only happens at the
second point. -/
theorem hot_swap_counterexample :
    (handleUpdate rootA "/p/tests/a.spec.ts" true (.ok [newSuiteA])).map
        (fun q => (q.1, belowN q.2)) =
      [(HostEv.importOk, [(1, some "/p/tests/a.spec.ts"), (2, none)]),
       (HostEv.detachDone, [(2, none)]),
       (HostEv.tagDone, [(2, some "/p/tests/a.spec.ts")])] ∧
    (handleUpdate rootA "/p/tests/a.spec.ts" true (.ok [newSuiteA])).head?.map
        Prod.fst ≠ some HostEv.detachDone := by
  decide

/-- Claim C2 (amended): within a hot swap the actual step order is
re-import, then detach, then tag — the re-import precedes the detach, so
old and new suites briefly coexist — and the detach completes before the
tag step begins: at the detach point no node below the root carries the
file's tag any more. -/
theorem hot_swap_import_then_detach_then_tag (root : SNode) (f : String)
    (ns : List SNode) :
    (handleUpdate root f true (.ok ns)).map Prod.fst =
      [HostEv.importOk, HostEv.detachDone, HostEv.tagDone] ∧
    (∀ t, (handleUpdate root f true (.ok ns)).get? 1 = some (HostEv.detachDone, t) →
      ∀ p ∈ belowN t, p.2 ≠ some f) := by
  constructor
  · rfl
  · intro t ht p hp
    have : t = detachFilePathSuites f (addTop root ns) := by
      simp only [handleUpdate] at ht
      injection ht with h1
      injection h1 with h2 h3
      exact h3.symm
    subst this
    exact belowN_cleanS_no_f f (addTop root ns) p hp

/-- Witness for the amended C2 at a concrete tree. -/
theorem hot_swap_import_then_detach_then_tag_witness :
    (handleUpdate rootA "/p/tests/a.spec.ts" true (.ok [newSuiteA])).map Prod.fst =
      [HostEv.importOk, HostEv.detachDone, HostEv.tagDone] :=
  (hot_swap_import_then_detach_then_tag rootA "/p/tests/a.spec.ts" [newSuiteA]).1

/-- Counterexample to claim C3 as stated: when the re-import throws, the
detach has not happened — at both observable points the tree is unchanged
and still contains the file's old suite. -/
theorem import_error_counterexample :
    handleUpdate rootA "/p/tests/a.spec.ts" true (.error "SyntaxError") =
      [(HostEv.importErr, rootA), (HostEv.reload, rootA)] ∧
    ((1, some "/p/tests/a.spec.ts") ∈ belowN rootA) ∧
    (∀ q ∈ handleUpdate rootA "/p/tests/a.spec.ts" true (.error "SyntaxError"),
      (1, some "/p/tests/a.spec.ts") ∈ belowN q.2) :=
  ⟨rfl, by decide, by decide⟩

/-- Claim C3 (amended): when the re-import of a hot update throws, the
detach step has not run — the trace is the import error followed by the
client's fallback full page reload, the suite tree at both points is the
original tree with the file's old suites still present, no new suites were
added, and no detach or tag event occurs. -/
theorem import_error_no_detach (root : SNode) (f : String) (e : String) :
    handleUpdate root f true (.error e) =
      [(HostEv.importErr, root), (HostEv.reload, root)] ∧
    HostEv.detachDone ∉ (handleUpdate root f true (.error e)).map Prod.fst ∧
    HostEv.tagDone ∉ (handleUpdate root f true (.error e)).map Prod.fst := by
  refine ⟨rfl, ?_, ?_⟩ <;> simp [handleUpdate]

theorem schedInv_proceedCaller (s : Sched) (c : Nat) (h : SchedInv s) :
    SchedInv (proceedCaller s c) := by
  obtain ⟨h1, h2, h3⟩ := h
  by_cases hr : s.isRebuilding
  · cases hq : s.rebuildPromise with
    | some q =>
        simp only [proceedCaller, hr, if_true, hq]
        exact ⟨h1, hr ▸ h2, hq ▸ h3⟩
    | none =>
        simp only [proceedCaller, hr, if_true, hq]
        exact ⟨h1, hr ▸ h2, hq ▸ h3⟩
  · have hrF : s.isRebuilding = false := by
      revert hr; cases s.isRebuilding <;> simp
    have hrun : s.running = [] := by
      rw [hrF] at h2
      cases hP : s.running with
      | nil => rfl
      | cons x xs => rw [hP] at h2; simp at h2
    simp only [proceedCaller, hrF, Bool.false_eq_true, if_false, startPass]
    exact ⟨by simp [hrun], by simp [hrun], by simp [hrun]⟩

theorem schedInv_stepArrive (s : Sched) (c : Nat) (h : SchedInv s) :
    SchedInv (stepArrive s c) := by
  obtain ⟨h1, h2, h3⟩ := h
  cases hq : s.rebuildPromise with
  | some p =>
      simp only [stepArrive, hq]
      exact ⟨h1, h2, hq ▸ h3⟩
  | none =>
      simp only [stepArrive, hq]
      exact schedInv_proceedCaller s c ⟨h1, h2, h3⟩

theorem schedInv_resumeOne (s : Sched) (c : Nat) (ib : Bool) (h : SchedInv s) :
    SchedInv (resumeOne s c ib) := by
  obtain ⟨h1, h2, h3⟩ := h
  cases ib with
  | true =>
      simp only [resumeOne, if_true]
      exact ⟨h1, h2, h3⟩
  | false =>
      simp only [resumeOne, Bool.false_eq_true, if_false]
      exact schedInv_proceedCaller s c ⟨h1, h2, h3⟩

theorem schedInv_resumeFold (ws : List (Nat × Nat × Bool)) (s : Sched)
    (h : SchedInv s) :
    SchedInv (ws.foldl (fun acc w => resumeOne acc w.1 w.2.2) s) := by
  induction ws generalizing s with
  | nil => exact h
  | cons w ws ih => exact ih _ (schedInv_resumeOne s w.1 w.2.2 h)

theorem schedInv_stepComplete (s : Sched) (h : SchedInv s) :
    SchedInv (stepComplete s) := by
  obtain ⟨h1, h2, h3⟩ := h
  cases hP : s.running with
  | nil =>
      simp only [stepComplete, hP]
      exact ⟨h1, h2, h3⟩
  | cons p rest =>
      have hrest : rest = [] := by
        rw [hP] at h1; simpa using h1
      subst hrest
      simp only [stepComplete, hP]
      apply schedInv_resumeFold
      exact ⟨by simp, by simp, by simp⟩

theorem schedInv_schedStep (s : Sched) (e : SchedEv) (h : SchedInv s) :
    SchedInv (schedStep s e) := by
  cases e with
  | arrive c => exact schedInv_stepArrive s c h
  | complete => exact schedInv_stepComplete s h

theorem schedInv_schedRun (s : Sched) (evs : List SchedEv) (h : SchedInv s) :
    SchedInv (schedRun s evs) := by
  induction evs generalizing s with
  | nil => exact h
  | cons e evs ih => exact ih _ (schedInv_schedStep s e h)

theorem schedRun_arrives (s : Sched) (p : Nat) (hp : s.rebuildPromise = some p)
    (cs : List Nat) :
    schedRun s (cs.map SchedEv.arrive) =
      { s with waiters := s.waiters ++ cs.map (fun c => (c, p, false)) } := by
  induction cs generalizing s with
  | nil => simp [schedRun]
  | cons c cs ih =>
      simp only [List.map_cons, schedRun, List.foldl_cons]
      have hstep : schedStep s (SchedEv.arrive c) =
          { s with waiters := s.waiters ++ [(c, p, false)] } := by
        simp [schedStep, stepArrive, hp]
      rw [hstep]
      have := ih { s with waiters := s.waiters ++ [(c, p, false)] } (by simpa using hp)
      simp only [schedRun] at this
      rw [this]
      simp

theorem resume_fold_busy (cs : List Nat) (s : Sched) (q : Nat)
    (hr : s.isRebuilding = true) (hq : s.rebuildPromise = some q) :
    cs.foldl (fun acc c => resumeOne acc c false) s =
      { s with waiters := s.waiters ++ cs.map (fun c => (c, q, true)) } := by
  induction cs generalizing s with
  | nil => simp
  | cons c cs ih =>
      simp only [List.foldl_cons, List.map_cons]
      have hstep : resumeOne s c false =
          { s with waiters := s.waiters ++ [(c, q, true)] } := by
        simp [resumeOne, proceedCaller, hr, hq]
      rw [hstep]
      rw [ih { s with waiters := s.waiters ++ [(c, q, true)] } (by simpa using hr)
        (by simpa using hq)]
      simp

theorem resume_fold_bottom (ps : List (Nat × Nat × Bool)) (s : Sched)
    (hb : ∀ w ∈ ps, w.2.2 = true) :
    ps.foldl (fun acc w => resumeOne acc w.1 w.2.2) s =
      { s with resolvedCallers := s.resolvedCallers ++ ps.map (fun w => w.1) } := by
  induction ps generalizing s with
  | nil => simp
  | cons w ps ih =>
      simp only [List.foldl_cons, List.map_cons]
      have hw : w.2.2 = true := hb w (List.mem_cons_self _ _)
      have hstep : resumeOne s w.1 w.2.2 =
          { s with resolvedCallers := s.resolvedCallers ++ [w.1] } := by
        rw [hw]; simp [resumeOne]
      rw [hstep]
      rw [ih { s with resolvedCallers := s.resolvedCallers ++ [w.1] }
        (fun v hv => hb v (List.mem_cons_of_mem _ hv))]
      simp

theorem map_fst_tag (l : List Nat) (q : Nat) :
    (l.map (fun x => (x, q, true))).map (fun w : Nat × Nat × Bool => w.1) = l := by
  induction l with
  | nil => rfl
  | cons x l ih => simp [ih]

theorem stepComplete_one (ir : Bool) (rp : Option Nat) (ni : Nat) (p : Nat)
    (ws : List (Nat × Nat × Bool)) (rc : List Nat)
    (hws : ∀ w ∈ ws, w.2.1 = p) :
    stepComplete ⟨ir, rp, ni, [p], ws, rc⟩ =
      ws.foldl (fun acc w => resumeOne acc w.1 w.2.2)
        ⟨false, none, ni, [], [], rc⟩ := by
  simp only [stepComplete]
  have hfil1 : ws.filter (fun w => w.2.1 = p) = ws := by
    rw [List.filter_eq_self]
    intro w hw
    simp [hws w hw]
  have hfil2 : ws.filter (fun w => w.2.1 ≠ p) = [] := by
    rw [List.filter_eq_nil_iff]
    intro w hw
    simp [hws w hw]
  rw [hfil1, hfil2]

/-- Claim C1: the scheduler invariant — at most one rebuild pass executes
at a time — holds after every event sequence from startup; and when N >= 1
queueRebuild calls arrive while a pass is in flight, no new pass starts
while it runs (nextId is unchanged), its settlement starts exactly one
additional pass (id 1; not N), every one of the N callers then awaits that
pass at the bottom await with none of their promises yet resolved, and all
N promises resolve exactly when that one pass completes. -/
theorem queueRebuild_single_flight :
    (∀ evs : List SchedEv, SchedInv (schedRun schedInit evs)) ∧
    (∀ callers : List Nat, callers ≠ [] →
      (schedRun inflightSched (callers.map SchedEv.arrive)).nextId =
        inflightSched.nextId ∧
      schedRun inflightSched (callers.map SchedEv.arrive ++ [SchedEv.complete]) =
        ⟨true, some 1, 2, [1], callers.map (fun c => (c, 1, true)), []⟩ ∧
      (stepComplete (schedRun inflightSched
        (callers.map SchedEv.arrive ++ [SchedEv.complete]))).resolvedCallers =
        callers ∧
      (stepComplete (schedRun inflightSched
        (callers.map SchedEv.arrive ++ [SchedEv.complete]))).running = []) := by
  constructor
  · intro evs
    exact schedInv_schedRun schedInit evs
      ⟨by simp [schedInit], by simp [schedInit], by simp [schedInit]⟩
  · intro callers hne
    have hburst : schedRun inflightSched (callers.map SchedEv.arrive) =
        { inflightSched with
            waiters := inflightSched.waiters ++
              callers.map (fun c => (c, 0, false)) } :=
      schedRun_arrives inflightSched 0 rfl callers
    have hnext : (schedRun inflightSched (callers.map SchedEv.arrive)).nextId =
        inflightSched.nextId := by
      rw [hburst]
    refine ⟨hnext, ?_⟩
    have hsplit : schedRun inflightSched
        (callers.map SchedEv.arrive ++ [SchedEv.complete]) =
        stepComplete (schedRun inflightSched (callers.map SchedEv.arrive)) := by
      simp [schedRun, List.foldl_append, schedStep]
    obtain ⟨c, cs, rfl⟩ : ∃ c cs, callers = c :: cs := by
      cases callers with
      | nil => exact absurd rfl hne
      | cons c cs => exact ⟨c, cs, rfl⟩
    have hafter : schedRun inflightSched
        ((c :: cs).map SchedEv.arrive ++ [SchedEv.complete]) =
        ⟨true, some 1, 2, [1], (c :: cs).map (fun x => (x, 1, true)), []⟩ := by
      rw [hsplit, hburst]
      show stepComplete
        ⟨true, some 0, 1, [0],
          [] ++ (c :: cs).map (fun x => (x, 0, false)), []⟩ = _
      rw [List.nil_append]
      rw [stepComplete_one true (some 0) 1 0 _ []
        (fun w hw => by
          rcases List.mem_map.mp hw with ⟨x, -, rfl⟩
          rfl)]
      rw [List.foldl_map]
      simp only [List.foldl_cons]
      have hstep1 : resumeOne ⟨false, none, 1, [], [], []⟩ c false =
          ⟨true, some 1, 2, [1], [(c, 1, true)], []⟩ := by
        simp [resumeOne, proceedCaller, startPass]
      rw [hstep1]
      rw [resume_fold_busy cs ⟨true, some 1, 2, [1], [(c, 1, true)], []⟩ 1 rfl rfl]
      simp
    have hfinal : stepComplete (schedRun inflightSched
        ((c :: cs).map SchedEv.arrive ++ [SchedEv.complete])) =
        ⟨false, none, 2, [], [], c :: cs⟩ := by
      rw [hafter]
      rw [stepComplete_one true (some 1) 2 1 _ []
        (fun w hw => by
          rcases List.mem_map.mp hw with ⟨x, -, rfl⟩
          rfl)]
      rw [resume_fold_bottom _ _
        (fun w hw => by
          rcases List.mem_map.mp hw with ⟨x, -, rfl⟩
          rfl)]
      rw [map_fst_tag]
      simp
    exact ⟨hafter, by rw [hfinal], by rw [hfinal]⟩

/-- Witness for C1: three concurrent callers arriving while pass 0 is in
flight. -/
theorem queueRebuild_single_flight_witness :
    ([5, 6, 7] : List Nat) ≠ [] ∧
    schedRun inflightSched ([5, 6, 7].map SchedEv.arrive ++ [SchedEv.complete]) =
      ⟨true, some 1, 2, [1], [(5, 1, true), (6, 1, true), (7, 1, true)], []⟩ ∧
    (stepComplete (schedRun inflightSched
      ([5, 6, 7].map SchedEv.arrive ++ [SchedEv.complete]))).resolvedCallers =
      [5, 6, 7] :=
  ⟨by decide,
    (queueRebuild_single_flight.2 [5, 6, 7] (by decide)).2.1,
    (queueRebuild_single_flight.2 [5, 6, 7] (by decide)).2.2.1⟩

theorem gval_gmSet (m : GMap) (k : String) (v : List String) (k' : String) :
    gval (gmSet m k v) k' = if k' = k then v else gval m k' := by
  induction m with
  | nil =>
      rcases eq_or_ne k' k with rfl | h
      · simp [gmSet, gval, gmGet?]
      · simp [gmSet, gval, gmGet?, h, Ne.symm h]
  | cons e rest ih =>
      simp only [gmSet]
      by_cases he : e.1 = k
      · rw [if_pos he]
        rcases eq_or_ne k' k with rfl | h
        · simp [gval, gmGet?]
        · simp [gval, gmGet?, h, Ne.symm h, show e.1 ≠ k' from he ▸ Ne.symm h]
      · rw [if_neg he]
        by_cases hek : e.1 = k'
        · have h : k' ≠ k := fun hh => he (hek.trans hh)
          simp [gval, gmGet?, hek, h]
        · simp only [gval, gmGet?] at ih ⊢
          simp [hek, ih]

theorem gval_gmDel (m : GMap) (k k' : String) :
    gval (gmDel m k) k' = if k' = k then [] else gval m k' := by
  induction m with
  | nil => simp [gmDel, gval, gmGet?]
  | cons e rest ih =>
      simp only [gmDel]
      by_cases he : e.1 = k
      · rw [if_pos he, ih]
        rcases eq_or_ne k' k with rfl | h
        · simp
        · simp [gval, gmGet?, h, show e.1 ≠ k' from he ▸ Ne.symm h]
      · rw [if_neg he]
        by_cases hek : e.1 = k'
        · have h : k' ≠ k := fun hh => he (hek.trans hh)
          simp [gval, gmGet?, hek, h]
        · simp only [gval, gmGet?] at ih ⊢
          simp [hek, ih]

theorem gval_gmAdjustDel (m : GMap) (k x k' : String) :
    gval (gmAdjustDel m k x) k' =
      if k' = k then ssDel (gval m k) x else gval m k' := by
  induction m with
  | nil =>
      rcases eq_or_ne k' k with rfl | h
      · simp [gmAdjustDel, gval, gmGet?, ssDel]
      · simp [gmAdjustDel, gval, gmGet?, h]
  | cons e rest ih =>
      simp only [gmAdjustDel]
      by_cases he : e.1 = k
      · rw [if_pos he]
        rcases eq_or_ne k' k with rfl | h
        · simp [gval, gmGet?, he]
        · simp [gval, gmGet?, h, show e.1 ≠ k' from he ▸ Ne.symm h]
      · rw [if_neg he]
        by_cases hek : e.1 = k'
        · have h : k' ≠ k := fun hh => he (hek.trans hh)
          simp [gval, gmGet?, hek, h]
        · simp only [gval, gmGet?] at ih ⊢
          simp [hek, he, ih]

theorem gval_gmAddTo (m : GMap) (k x k' : String) :
    gval (gmAddTo m k x) k' =
      if k' = k then ssAdd (gval m k) x else gval m k' := by
  induction m with
  | nil =>
      rcases eq_or_ne k' k with rfl | h
      · simp [gmAddTo, gval, gmGet?, ssAdd]
      · simp [gmAddTo, gval, gmGet?, h, Ne.symm h]
  | cons e rest ih =>
      simp only [gmAddTo]
      by_cases he : e.1 = k
      · rw [if_pos he]
        rcases eq_or_ne k' k with rfl | h
        · simp [gval, gmGet?, he]
        · simp [gval, gmGet?, h, show e.1 ≠ k' from he ▸ Ne.symm h]
      · rw [if_neg he]
        by_cases hek : e.1 = k'
        · have h : k' ≠ k := fun hh => he (hek.trans hh)
          simp [gval, gmGet?, hek, h]
        · simp only [gval, gmGet?] at ih ⊢
          simp [hek, he, ih]

theorem gval_gmScrub (m : GMap) (x k : String) :
    gval (gmScrub m x) k = ssDel (gval m k) x := by
  induction m with
  | nil => simp [gmScrub, gval, gmGet?, ssDel]
  | cons e rest ih =>
      simp only [gmScrub, List.map_cons, gval, gmGet?] at ih ⊢
      by_cases hek : e.1 = k
      · simp [hek]
      · simp [hek, ih]

theorem mem_ssAdd (s : List String) (x a : String) :
    a ∈ ssAdd s x ↔ (a ∈ s ∨ a = x) := by
  unfold ssAdd
  by_cases h : x ∈ s
  · simp only [if_pos h]
    constructor
    · exact Or.inl
    · rintro (h1 | rfl)
      · exact h1
      · exact h
  · simp [h]

theorem mem_ssDel (s : List String) (x a : String) :
    a ∈ ssDel s x ↔ (a ∈ s ∧ a ≠ x) := by
  simp [ssDel]

theorem mem_gval_fold_adjustDel (L : List String) (rd : GMap) (x b a : String) :
    (a ∈ gval (L.foldl (fun m d => gmAdjustDel m d x) rd) b) ↔
      (a ∈ gval rd b ∧ ¬(a = x ∧ b ∈ L)) := by
  induction L generalizing rd with
  | nil => simp
  | cons d L ih =>
      simp only [List.foldl_cons, ih, gval_gmAdjustDel]
      by_cases hb : b = d
      · subst hb
        simp [mem_ssDel]
        tauto
      · simp only [if_neg hb, List.mem_cons]
        tauto

theorem mem_gval_fold_addTo (L : List String) (rd : GMap) (x b a : String) :
    (a ∈ gval (L.foldl (fun m d => gmAddTo m d x) rd) b) ↔
      (a ∈ gval rd b ∨ (a = x ∧ b ∈ L)) := by
  induction L generalizing rd with
  | nil => simp
  | cons d L ih =>
      simp only [List.foldl_cons, ih, gval_gmAddTo]
      by_cases hb : b = d
      · subst hb
        simp [mem_ssAdd]
        tauto
      · simp only [if_neg hb, List.mem_cons]
        tauto

theorem transposeInv_rebuildOne (extract : String → List String) (g : DepGraph)
    (file : String) (h : TransposeInv g) :
    TransposeInv (rebuildOne extract g file) := by
  intro a b
  have hab := h a b
  simp only [memEdge] at hab
  simp only [rebuildOne, memEdge, gval_gmSet, mem_gval_fold_addTo,
    mem_gval_fold_adjustDel]
  by_cases ha : a = normPath file
  · subst ha
    simp only [gval] at hab ⊢
    simp only [if_true, eq_self_iff_true, true_and]
    tauto
  · simp only [gval] at hab ⊢
    simp only [if_neg ha, ha, false_and, or_false]
    tauto

theorem transposeInv_removeFileEdges (g : DepGraph) (fp : String)
    (h : TransposeInv g) : TransposeInv (removeFileEdges g fp) := by
  intro a b
  have hab := h a b
  simp only [memEdge] at hab ⊢
  simp only [removeFileEdges, gval_gmScrub, gval_gmDel, mem_ssDel]
  by_cases hafp : a = fp <;> by_cases hbfp : b = fp <;>
    simp [hafp, hbfp, hab]

theorem transposeInv_buildDependencyGraph (existsF : String → Bool)
    (extract : String → List String) (g : DepGraph) (files : List String)
    (h : TransposeInv g) :
    TransposeInv (buildDependencyGraph existsF extract g files) := by
  unfold buildDependencyGraph
  generalize files.filter existsF = l
  induction l generalizing g with
  | nil => exact h
  | cons f l ih => exact ih _ (transposeInv_rebuildOne extract g f h)

theorem transposeInv_removeDirFold (files : List String) (g : DepGraph)
    (h : TransposeInv g) : TransposeInv (files.foldl removeFileEdges g) := by
  induction files generalizing g with
  | nil => exact h
  | cons f l ih => exact ih _ (transposeInv_removeFileEdges g f h)

theorem transposeInv_applyGraphOp (existsF : String → Bool)
    (extract : String → List String) (g : DepGraph) (op : GraphOp)
    (h : TransposeInv g) : TransposeInv (applyGraphOp existsF extract g op) := by
  cases op with
  | rebuild files => exact transposeInv_buildDependencyGraph existsF extract g files h
  | removeFile f => exact transposeInv_removeFileEdges g (normPath f) h
  | removeDir files => exact transposeInv_removeDirFold files g h

theorem transposeInv_applyGraphOps (existsF : String → Bool)
    (extract : String → List String) (g : DepGraph) (ops : List GraphOp)
    (h : TransposeInv g) : TransposeInv (applyGraphOps existsF extract g ops) := by
  induction ops generalizing g with
  | nil => exact h
  | cons op ops ih => exact ih _ (transposeInv_applyGraphOp existsF extract g op h)

/-- Claim C6: starting from any state whose maps are exact transposes
(such as the empty maps at startup), after every prefix of any sequence of
graph operations — rebuilding entries for a set of files, removing a file,
removing a directory — the forward and reverse dependency maps are still
exact transposes of each other. -/
theorem graph_transpose_invariant (existsF : String → Bool)
    (extract : String → List String) (g : DepGraph) (ops : List GraphOp)
    (h : TransposeInv g) (n : Nat) :
    TransposeInv (applyGraphOps existsF extract g (ops.take n)) :=
  transposeInv_applyGraphOps existsF extract g (ops.take n) h

/-- Witness for C6: the empty graph, one rebuild of one file followed by
its removal, observed after each prefix. -/
theorem graph_transpose_invariant_witness :
    TransposeInv ⟨[], []⟩ ∧
    TransposeInv (applyGraphOps (fun _ => true) (fun _ => ["/p/src/b.ts"])
      ⟨[], []⟩ (([GraphOp.rebuild ["/p/src/a.ts"], GraphOp.removeFile "/p/src/a.ts"]).take 1)) ∧
    TransposeInv (applyGraphOps (fun _ => true) (fun _ => ["/p/src/b.ts"])
      ⟨[], []⟩ (([GraphOp.rebuild ["/p/src/a.ts"], GraphOp.removeFile "/p/src/a.ts"]).take 2)) :=
  have h0 : TransposeInv ⟨[], []⟩ := fun a b => by
    simp [memEdge, gval, gmGet?]
  ⟨h0,
    graph_transpose_invariant (fun _ => true) (fun _ => ["/p/src/b.ts"]) ⟨[], []⟩
      [GraphOp.rebuild ["/p/src/a.ts"], GraphOp.removeFile "/p/src/a.ts"] h0 1,
    graph_transpose_invariant (fun _ => true) (fun _ => ["/p/src/b.ts"]) ⟨[], []⟩
      [GraphOp.rebuild ["/p/src/a.ts"], GraphOp.removeFile "/p/src/a.ts"] h0 2⟩

/-- Claim C5: for every change set with at least one test file and no
source file, and for every change kind and every configured policy,
determineUpdateStrategy returns test-update (and hence never full-reload). -/
theorem classify_test_only_never_reloads (pm : String → String → Bool)
    (cfg : HmrCfg) (files : List String) (ct : ChangeType)
    (hTest : files.any (isTestFile cfg) = true)
    (hSrc : files.any (isSourceFile cfg) = false) :
    determineUpdateStrategy pm cfg files ct =
      (.testUpdate, "Test files changed - incremental update") ∧
    (determineUpdateStrategy pm cfg files ct).1 ≠ UpdateType.fullReload := by
  unfold determineUpdateStrategy
  simp [hTest, hSrc]

/-- Witness for C5: a single changed test file under the test root, with a
pattern oracle that matches everything, a removal change kind, and the
default policy. -/
theorem classify_test_only_never_reloads_witness :
    (["/p/tests/a.spec.ts"].any (isTestFile cfgA) = true) ∧
    (["/p/tests/a.spec.ts"].any (isSourceFile cfgA) = false) ∧
    determineUpdateStrategy pmTrue cfgA ["/p/tests/a.spec.ts"] .unlink =
      (.testUpdate, "Test files changed - incremental update") :=
  ⟨by decide, by decide,
    (classify_test_only_never_reloads pmTrue cfgA ["/p/tests/a.spec.ts"] .unlink
      (by decide) (by decide)).1⟩

/-- Counterexample to claim C7 as stated: removing a non-critical test file
is a removal with no critical file, yet the classifier returns test-update,
not update. -/
theorem classify_removal_counterexample :
    (["/p/tests/a.spec.ts"].any (isCriticalSourceFile pmFalse cfgA) = false) ∧
    (determineUpdateStrategy pmFalse cfgA ["/p/tests/a.spec.ts"] .unlink).1 ≠
      UpdateType.update := by
  decide

/-- Claim C7 (amended): for a removal change whose change set is not
test-only, the classifier returns full-reload when some removed file is
critical and update otherwise, with the code's reason strings. -/
theorem classify_removal_amended (pm : String → String → Bool) (cfg : HmrCfg)
    (files : List String) (ct : ChangeType)
    (hct : ct = ChangeType.unlink ∨ ct = ChangeType.unlinkDir)
    (hNotTestOnly : ¬(files.any (isSourceFile cfg) = false ∧
      files.any (isTestFile cfg) = true)) :
    (files.any (isCriticalSourceFile pm cfg) = true →
      determineUpdateStrategy pm cfg files ct =
        (.fullReload, "Critical source file/directory removed")) ∧
    (files.any (isCriticalSourceFile pm cfg) = false →
      determineUpdateStrategy pm cfg files ct =
        (.update, "Source file/directory removed - updating dependents")) := by
  unfold determineUpdateStrategy
  rcases h1 : files.any (isSourceFile cfg) <;>
    rcases h2 : files.any (isTestFile cfg) <;>
    rcases h3 : files.any (isCriticalSourceFile pm cfg) <;>
    rcases hct with rfl | rfl <;>
    simp_all

/-- Witness for the amended C7: removing a critical source file yields
full-reload with the removal reason. -/
theorem classify_removal_amended_witness :
    (¬((["/p/src/config/app.ts"] : List String).any (isSourceFile cfgA) = false ∧
      (["/p/src/config/app.ts"] : List String).any (isTestFile cfgA) = true)) ∧
    determineUpdateStrategy pmTrue cfgA ["/p/src/config/app.ts"] .unlink =
      (.fullReload, "Critical source file/directory removed") :=
  ⟨by decide,
    (classify_removal_amended pmTrue cfgA ["/p/src/config/app.ts"] .unlink
      (Or.inl rfl) (by decide)).1 (by decide)⟩

/-- Counterexample to claim C9 as stated: a file inside the second
configured source root directory is classified unknown, not source. -/
theorem fileKind_counterexample :
    ("/p/lib" ∈ cfgMulti.srcDirs) ∧
    strHasLead (normPath "/p/lib/util.ts") (normPath "/p/lib") = true ∧
    fileKind cfgMulti "/p/lib/util.ts" = FileKind.unknown := by
  decide

/-- Claim C9 (amended): the file kind is test exactly when the normalized
path starts with the normalized first configured test directory, source
exactly when it is not test and starts with the normalized first
configured source directory, and unknown otherwise. -/
theorem fileKind_primary_only (cfg : HmrCfg) (f : String) :
    (fileKind cfg f = FileKind.test ↔
      strHasLead (normPath f) (normPath (cfg.testDirs.headD "./tests")) = true) ∧
    (fileKind cfg f = FileKind.source ↔
      (strHasLead (normPath f) (normPath (cfg.testDirs.headD "./tests")) = false ∧
       strHasLead (normPath f) (normPath (cfg.srcDirs.headD "./src")) = true)) ∧
    (fileKind cfg f = FileKind.unknown ↔
      (strHasLead (normPath f) (normPath (cfg.testDirs.headD "./tests")) = false ∧
       strHasLead (normPath f) (normPath (cfg.srcDirs.headD "./src")) = false)) := by
  unfold fileKind isTestFile isSourceFile primaryTestDir primarySrcDir
  rcases h1 : strHasLead (normPath f) (normPath (cfg.testDirs.headD "./tests")) <;>
    rcases h2 : strHasLead (normPath f) (normPath (cfg.srcDirs.headD "./src")) <;>
    simp [h1, h2]

/-- Witness for the amended C9: a path under the primary test root is
classified test. -/
theorem fileKind_primary_only_witness :
    strHasLead (normPath "/p/tests/x.ts") (normPath (cfgA.testDirs.headD "./tests")) = true ∧
    fileKind cfgA "/p/tests/x.ts" = FileKind.test :=
  ⟨by decide, (fileKind_primary_only cfgA "/p/tests/x.ts").1.mpr (by decide)⟩

/-- Claim C10: a file not under the primary source directory is never
critical, even when a critical pattern matches it; it contributes nothing
to hasCriticalChanges, and when no changed file is critical the classifier
never produces either critical full-reload reason. -/
theorem nonsource_never_critical (pm : String → String → Bool) (cfg : HmrCfg)
    (f : String) (hf : isSourceFile cfg f = false) :
    isCriticalSourceFile pm cfg f = false ∧
    (∀ files : List String, (f :: files).any (isCriticalSourceFile pm cfg) =
      files.any (isCriticalSourceFile pm cfg)) ∧
    (∀ (files : List String) (ct : ChangeType),
      files.any (isCriticalSourceFile pm cfg) = false →
      (determineUpdateStrategy pm cfg files ct).2 ≠
        "Critical source file/directory removed" ∧
      (determineUpdateStrategy pm cfg files ct).2 ≠ "Critical source file changed") := by
  have hcrit : isCriticalSourceFile pm cfg f = false := by
    unfold isCriticalSourceFile
    simp [hf]
  refine ⟨hcrit, ?_, ?_⟩
  · intro files
    simp [List.any_cons, hcrit]
  · intro files ct h
    unfold determineUpdateStrategy
    simp only [h]
    rcases h1 : files.any (isSourceFile cfg) <;>
      rcases h2 : files.any (isTestFile cfg) <;>
      rcases ct <;> rcases hs : cfg.sourceChangeStrategy <;> simp_all

/-- Witness for C10: a test-root path matching every critical pattern is
still not critical. -/
theorem nonsource_never_critical_witness :
    isSourceFile cfgA "/p/tests/config/setup.config.ts" = false ∧
    isCriticalSourceFile pmTrue cfgA "/p/tests/config/setup.config.ts" = false :=
  ⟨by decide,
    (nonsource_never_critical pmTrue cfgA "/p/tests/config/setup.config.ts" (by decide)).1⟩

/-- Claim C8: a first bundler failure of UNRESOLVED_ENTRY class triggers
exactly one retry on the entry sets re-filtered to existing files; when the
re-filtered sets are empty the pass is abandoned without error; any other
first failure, and any retry failure, aborts the pass. -/
theorem rebuild_retry_policy (existsF : String → Bool)
    (retryBuild : List String → List String → Except BuildErr Nat)
    (vs vt : List String) :
    (∀ c : Nat, runBuildStep (.ok c) existsF retryBuild vs vt = (.completed c, 1)) ∧
    (∀ msg : String, runBuildStep (.error (.other msg)) existsF retryBuild vs vt =
      (.aborted (.other msg), 1)) ∧
    (((vs.filter existsF).isEmpty && (vt.filter existsF).isEmpty) = true →
      runBuildStep (.error .unresolvedEntry) existsF retryBuild vs vt =
        (.abandoned, 1)) ∧
    (((vs.filter existsF).isEmpty && (vt.filter existsF).isEmpty) = false →
      runBuildStep (.error .unresolvedEntry) existsF retryBuild vs vt =
        ((match retryBuild (vs.filter existsF) (vt.filter existsF) with
          | .ok c => PassOutcome.completed c
          | .error e2 => PassOutcome.aborted e2), 2)) := by
  refine ⟨fun c => rfl, fun msg => rfl, ?_, ?_⟩
  · intro h
    unfold runBuildStep
    simp [h]
  · intro h
    unfold runBuildStep
    simp [h]
    rcases retryBuild (vs.filter existsF) (vt.filter existsF) <;> rfl

/-- Witness for C8: a deleted entry filtered out at retry time, with the
retry succeeding. -/
theorem rebuild_retry_policy_witness :
    ((["/p/src/a.ts", "/p/src/b.ts"].filter (fun s => s == "/p/src/a.ts")).isEmpty &&
      (([] : List String).filter (fun s => s == "/p/src/a.ts")).isEmpty) = false ∧
    runBuildStep (.error .unresolvedEntry) (fun s => s == "/p/src/a.ts")
      (fun _ _ => .ok 7) ["/p/src/a.ts", "/p/src/b.ts"] [] =
      (PassOutcome.completed 7, 2) :=
  ⟨by decide,
    (rebuild_retry_policy (fun s => s == "/p/src/a.ts") (fun _ _ => .ok 7)
      ["/p/src/a.ts", "/p/src/b.ts"] []).2.2.2 (by decide)⟩

end Testify
